import Mathlib

/-!
Verification development for the ap-explanation provenance service.

The development shallow-embeds the cores of the repository:

* `CtidMapping` — the row-reference mapping strategy of
  `src/provenance_demo/repository/mapping/ctid_mapping.py`: decoding of single
  provenance values (`decode`) and of compound provenance equations
  (`decode_equation`), which in the Python source is a regex scan for
  groups of the shape  brace, table, at-sign, p, digits, r, digits, brace.

* `SqlRewriter` — the AST-level query rewriter of
  `src/ap_explanation/internal/sql_rewriter.py`, over an embedding of the
  sqlglot expression nodes the rewriter manipulates (Select, Subquery,
  Alias, Column, Literal, Anonymous, AggFunc, Having).  Parsing and
  serialisation by sqlglot are treated as the identity on these ASTs: the
  rewriter is modelled as a function from AST to AST.  The call
  `random.randint(1000, 9999)` that initialises the alias counter is
  modelled by an explicit `seed` argument.

* `ProvenanceRepository` — the annotation-state operations of
  `src/ap_explanation/repository/provenance.py` (`add_semiring`,
  `remove_semiring`, `_rebuild_union_mapping`) and the service-level
  `remove_annotation` of `src/ap_explanation/services/provenance.py`,
  modelled as transitions on the set of `(schema, table)` pairs present in
  the database: the claims under scrutiny concern only which tables exist.
-/

/-- Row reference decoded from a provenance token, mirroring the `RowCtid`
TypedDict of `ctid_mapping.py` (fields `table`, `page`, `row`). -/
structure RowCtid where
  table : String
  page : Nat
  row : Nat
deriving DecidableEq, Repr

namespace CtidMapping

/-- Value of Python `int(s)` on a string of ASCII digits: fold of
`10 * acc + digit`. -/
def parseDigits (ds : List Char) : Nat :=
  ds.foldl (fun a c => 10 * a + (c.toNat - 48)) 0

/-- Decimal digit characters of a natural number, most significant first;
this is the form Python `str(int)` produces for the page and row numbers. -/
def natChars (n : Nat) : List Char :=
  if n = 0 then ['0'] else ((Nat.digits 10 n).map Nat.digitChar).reverse

/-- The SQL expression string returned by `CtidMapping.encode` in the source
(line 22 of `ctid_mapping.py`); it makes the database render each row as
`table@p<page>r<row>`. -/
def encode (table_name : String) : String :=
  "\x27" ++ table_name ++ "@p\x27||(ctid::text::point)[0]::int||\x27r\x27||(ctid::text::point)[1]::int"

/-- Character list of one brace-delimited contribution token
`{table@p<page>r<row>}` exactly as the provenance equations delimit the
value produced by the `encode` expression for the row at `(p, r)`. -/
def groupChars (t : String) (p r : Nat) : List Char :=
  '{' :: t.data ++ '@' :: 'p' :: natChars p ++ 'r' :: natChars r ++ ['}']

/-- One encoded contribution token as a string. -/
def encodeToken (t : String) (p r : Nat) : String :=
  String.mk (groupChars t p r)

/-- Concatenation of the encoded tokens of a list of `(table, page, row)`
triples. -/
def encodeTokens (groups : List (String × Nat × Nat)) : String :=
  String.mk ((groups.map (fun g => groupChars g.1 g.2.1 g.2.2)).flatten)

/-- Character class `[^{}@]` of the `decode_equation` regex. -/
def tableChar (c : Char) : Bool :=
  !(c = '{' || c = '}' || c = '@')

/-- A table name with no brace and no at-sign, the character set over which
the round-trip claim quantifies. -/
abbrev NoSpecialChars (t : String) : Prop :=
  ∀ c ∈ t.data, tableChar c = true

/-- Consumption of one fixed character, as the regex literals do. -/
def expectChar (c : Char) : List Char → Option (List Char)
  | [] => none
  | x :: xs => if x = c then some xs else none

/-- Consumption of a maximal non-empty digit run, as `(\d+)` does when the
following pattern character is not a digit. -/
def takeDigits (cs : List Char) : Option (List Char × List Char) :=
  let ds := cs.takeWhile Char.isDigit
  if ds.isEmpty then none else some (ds, cs.drop ds.length)

/-- Match of the regex `([^{}@]+)@p(\d+)r(\d+)\}` at the head of `cs`
(the position right after an opening brace).  Returns the decoded row
reference and the characters after the match.  The regex needs no
backtracking: the table class excludes the at-sign and the digit runs are
terminated by the non-digit letters `r` and `}`. -/
def matchGroup (cs : List Char) : Option (RowCtid × List Char) :=
  if (cs.takeWhile tableChar).isEmpty then none
  else
    (expectChar '@' (cs.drop (cs.takeWhile tableChar).length)).bind fun r1 =>
    (expectChar 'p' r1).bind fun r2 =>
    (takeDigits r2).bind fun d1 =>
    (expectChar 'r' d1.2).bind fun r3 =>
    (takeDigits r3).bind fun d2 =>
    (expectChar '}' d2.2).bind fun r4 =>
    some (⟨String.mk (cs.takeWhile tableChar), parseDigits d1.1, parseDigits d2.1⟩, r4)

/-- Fuel-driven scan of `re.findall` for the `decode_equation` regex: at each
position, when the character is an opening brace try to match one token; on a
match continue after it, otherwise advance one character.  The fuel bounds the
number of characters left and makes the function structurally recursive, hence
directly evaluable. -/
def scanEqAux : Nat → List Char → List RowCtid
  | 0, _ => []
  | _, [] => []
  | fuel + 1, c :: rest =>
    if c = '{' then
      match matchGroup rest with
      | some (row, rem) => row :: scanEqAux fuel rem
      | none => scanEqAux fuel rest
    else scanEqAux fuel rest

/-- Scan of a whole character list, fuelled by its own length. -/
def scanEq (cs : List Char) : List RowCtid :=
  scanEqAux cs.length cs

/-- Faithful model of `CtidMapping.decode_equation` (lines 42 to 59 of
`ctid_mapping.py`): return one `RowCtid` per regex match, in order of
appearance; fragments that do not match the regex are passed over. -/
def decode_equation (values : String) : List RowCtid :=
  scanEq values.data

/-- Characters of `value` before the first at-sign and after it, mirroring
Python `value.split(chr(64), 1)`. -/
def splitAtFirst (sep : Char) : List Char → List Char × List Char
  | [] => ([], [])
  | c :: cs =>
    if c = sep then ([], cs)
    else
      let p := splitAtFirst sep cs
      (c :: p.1, p.2)

/-- Match of the regex `p(\d+)r(\d+)` at the head of `cs`. -/
def matchPR (cs : List Char) : Option (Nat × Nat) :=
  match cs with
  | 'p' :: cs1 =>
    let ds1 := cs1.takeWhile Char.isDigit
    if ds1.isEmpty then none
    else
      match cs1.drop ds1.length with
      | 'r' :: cs2 =>
        let ds2 := cs2.takeWhile Char.isDigit
        if ds2.isEmpty then none else some (parseDigits ds1, parseDigits ds2)
      | _ => none
  | _ => none

/-- Scanning search of `re.search` for the pattern `p(\d+)r(\d+)`. -/
def searchPR : List Char → Option (Nat × Nat)
  | [] => none
  | c :: cs =>
    match matchPR (c :: cs) with
    | some pr => some pr
    | none => searchPR cs

/-- Faithful model of `CtidMapping.decode` (lines 24 to 40 of
`ctid_mapping.py`): reject values without an at-sign, split at the first
at-sign, search the remainder for `p<digits>r<digits>`, and reject values
where the search fails; errors carry the messages of the raised
`ValueError`. -/
def decode (value : String) : Except String RowCtid :=
  if value.data.contains '@' = false then
    .error ("Invalid provenance format: " ++ value)
  else
    let p := splitAtFirst '@' value.data
    match searchPR p.2 with
    | none => .error ("Invalid ctid format in: " ++ value)
    | some pr => .ok ⟨String.mk p.1, pr.1, pr.2⟩

end CtidMapping

/-- Embedding of the sqlglot expression nodes that `sql_rewriter.py`
constructs or inspects.  A `select` node carries the clauses relevant to the
rewriter: the projection list (`expressions`), FROM, WHERE, GROUP BY, the
HAVING condition (present exactly when the select carries a sqlglot `Having`
node), ORDER BY, LIMIT and the DISTINCT flag.  `anonymous` is sqlglot
`Anonymous` (a call to a function known only by name), `aggFunc` covers the
sqlglot `AggFunc` subclasses (SUM, COUNT, ...), `aliasE` is `Alias`,
`command` stands for a parsed non-SELECT statement containing no select. -/
inductive SqlExpr where
  | column (name tbl : String)
  | litStr (s : String)
  | litNum (n : Nat)
  | star
  | anonymous (fn : String) (args : List SqlExpr)
  | aggFunc (fn : String) (args : List SqlExpr)
  | aliasE (e : SqlExpr) (name : String)
  | binary (op : String) (lhs rhs : SqlExpr)
  | subquery (inner : SqlExpr) (al : String)
  | tableRef (name : String)
  | select (projs : List SqlExpr) (frm : Option SqlExpr) (whr : Option SqlExpr)
      (grp : Option (List SqlExpr)) (hav : Option SqlExpr) (ord : Option (List SqlExpr))
      (lim : Option SqlExpr) (distinct : Bool)
  | command (text : String)

mutual

/-- Faithful model of `SqlRewriter._contains_aggregate_not_in_subquery`
(lines 100 to 123 of `sql_rewriter.py`): an `AggFunc` node answers true, a
`Subquery` or `Select` node stops the traversal, and otherwise the children
are searched. -/
def containsAggregateNotInSubquery : SqlExpr → Bool
  | .aggFunc _ _ => true
  | .subquery _ _ => false
  | .select _ _ _ _ _ _ _ _ => false
  | .anonymous _ args => anyContainsAggregate args
  | .aliasE e _ => containsAggregateNotInSubquery e
  | .binary _ l r => containsAggregateNotInSubquery l || containsAggregateNotInSubquery r
  | .column _ _ => false
  | .litStr _ => false
  | .litNum _ => false
  | .star => false
  | .tableRef _ => false
  | .command _ => false

/-- Disjunction of `containsAggregateNotInSubquery` over a child list. -/
def anyContainsAggregate : List SqlExpr → Bool
  | [] => false
  | e :: es => containsAggregateNotInSubquery e || anyContainsAggregate es

end

mutual

/-- Model of `ast.find(Select)`: the select reached first from the root.  For
the statements the claims exercise the root is itself a select (returned
directly, as sqlglot walk visits the root first) or contains no select at
all. -/
def findSelect : SqlExpr → Option SqlExpr
  | .select p f w g h o l d => some (.select p f w g h o l d)
  | .anonymous _ args => findSelectList args
  | .aggFunc _ args => findSelectList args
  | .aliasE e _ => findSelect e
  | .binary _ l r => (findSelect l).orElse fun _ => findSelect r
  | .subquery inner _ => findSelect inner
  | .column _ _ => none
  | .litStr _ => none
  | .litNum _ => none
  | .star => none
  | .tableRef _ => none
  | .command _ => none

/-- First select found in a child list. -/
def findSelectList : List SqlExpr → Option SqlExpr
  | [] => none
  | e :: es => (findSelect e).orElse fun _ => findSelectList es

end

mutual

/-- Model of `any(node.find_all(Having))`: whether any select anywhere in the
tree (nested subqueries included, as `find_all` does not stop at subquery
boundaries) carries a HAVING clause. -/
def hasHavingNode : SqlExpr → Bool
  | .select projs frm whr grp hav ord lim _ =>
      hav.isSome || anyHasHaving projs ||
      (match frm with | some f => hasHavingNode f | none => false) ||
      (match whr with | some w => hasHavingNode w | none => false) ||
      (match grp with | some gs => anyHasHaving gs | none => false) ||
      (match ord with | some os => anyHasHaving os | none => false) ||
      (match lim with | some l => hasHavingNode l | none => false)
  | .anonymous _ args => anyHasHaving args
  | .aggFunc _ args => anyHasHaving args
  | .aliasE e _ => hasHavingNode e
  | .binary _ l r => hasHavingNode l || hasHavingNode r
  | .subquery inner _ => hasHavingNode inner
  | .column _ _ => false
  | .litStr _ => false
  | .litNum _ => false
  | .star => false
  | .tableRef _ => false
  | .command _ => false

/-- Disjunction of `hasHavingNode` over a child list. -/
def anyHasHaving : List SqlExpr → Bool
  | [] => false
  | e :: es => hasHavingNode e || anyHasHaving es

end

/-- Projection list (`expressions`) of a select node. -/
def selectProjs : SqlExpr → List SqlExpr
  | .select p _ _ _ _ _ _ _ => p
  | _ => []

/-- GROUP BY argument of a select node, `args.get(group)` in the source. -/
def selectGroup : SqlExpr → Option (List SqlExpr)
  | .select _ _ _ g _ _ _ _ => g
  | _ => none

/-- Faithful model of `SqlRewriter._has_top_level_aggregates` (lines 84 to 98
of `sql_rewriter.py`). -/
def hasTopLevelAggregates (sel : SqlExpr) : Bool :=
  (selectProjs sel).any containsAggregateNotInSubquery

/-- Value of sqlglot `alias_or_name` (`self.alias or self.name`) for the node
kinds of the embedding: the alias of an `Alias` or `Subquery`, the name of a
`Column` or `Table`, the text of a `Literal`, the function name of an
`Anonymous`, and the empty string otherwise. -/
def aliasOrName : SqlExpr → String
  | .aliasE _ n => n
  | .column n _ => n
  | .litStr s => s
  | .litNum n => toString n
  | .anonymous fn _ => fn
  | .subquery _ al => al
  | .tableRef n => n
  | _ => ""

/-- Embedding of the `DbSemiring` configuration model of
`src/ap_explanation/types/semiring.py` (the `mappingStrategy` field is the
`CtidMapping` strategy embedded separately and is not consulted by the
rewriter or by the table-state operations). -/
structure DbSemiring where
  name : String
  retrieval_function : String
  aggregate_function : Option String
  mapping_table : String

/-- Derived `table_suffix` property of `DbSemiring`. -/
def DbSemiring.table_suffix (s : DbSemiring) : String :=
  "_prov" ++ s.name

/-- Derived per-table provenance-table name of `DbSemiring`. -/
def DbSemiring.get_provenance_table_name_for (s : DbSemiring) (table_name : String) : String :=
  table_name ++ s.table_suffix

/-- Derived `union_table_name` property of `DbSemiring`. -/
def DbSemiring.union_table_name (s : DbSemiring) : String :=
  s.name ++ "_mapping"

/-- The exceptions `SqlRewriter.rewrite` can raise: Python `ValueError`,
`NotImplementedError`, and `SemiringOperationNotSupportedError` from
`src/ap_explanation/errors/exceptions.py`.  The repository defines no
exception class named UnsupportedQueryError. -/
inductive RewriteError where
  | valueError (msg : String)
  | notImplementedError (msg : String)
  | semiringOperationNotSupported (semiring_name operation : String)
deriving DecidableEq, Repr

/-- Python class name of the raised exception. -/
def RewriteError.className : RewriteError → String
  | .valueError _ => "ValueError"
  | .notImplementedError _ => "NotImplementedError"
  | .semiringOperationNotSupported _ _ => "SemiringOperationNotSupportedError"

/-- Message carried by the exception; for
`SemiringOperationNotSupportedError` this is the format of
`exceptions.py` lines 66 to 68 with both arguments provided, as the rewriter
provides them. -/
def RewriteError.message : RewriteError → String
  | .valueError m => m
  | .notImplementedError m => m
  | .semiringOperationNotSupported n op =>
      "The semiring \x27" ++ n ++ "\x27 does not support " ++ op ++
        ". Please use a different semiring that supports this operation."

/-- Claim-side predicate: whether the raised error is an instance of a class
named UnsupportedQueryError.  It compares the Python class name of the raised
exception with that string; no class of the codebase carries it. -/
def isUnsupportedQueryError (e : RewriteError) : Bool :=
  e.className = "UnsupportedQueryError"

/-- The projection appended by the non-aggregate path: a call to the
retrieval function with an opaque `provenance()` call and the mapping-table
string literal. -/
def provenanceProjection (s : DbSemiring) : SqlExpr :=
  .anonymous s.retrieval_function [.anonymous ("provenance") [], .litStr s.mapping_table]

/-- Faithful model of `SqlRewriter._rewrite_non_aggregate` (lines 125 to 165
of `sql_rewriter.py`): require the root to be a select and append the
retrieval projection to its projection list, leaving every other clause
untouched. -/
def rewriteNonAggregate (q : SqlExpr) (s : DbSemiring) : Except RewriteError SqlExpr :=
  match q with
  | .select projs frm whr grp hav ord lim dist =>
      .ok (.select (projs ++ [provenanceProjection s]) frm whr grp hav ord lim dist)
  | _ => .error (.valueError ("Expected SELECT query"))

/-- Test of Python `isinstance(e, Alias)`. -/
def isAlias : SqlExpr → Bool
  | .aliasE _ _ => true
  | _ => false

/-- Faithful model of the projection-partition loop of
`SqlRewriter._rewrite_aggregate` (lines 203 to 220): walk the projections
with the alias counter; an aggregate-bearing projection that is not already
an `Alias` is replaced by an aliased copy named `agg_result_<counter>` and
the counter is incremented.  Returns the rewritten projection list, the
aggregate-bearing projections (`proj_agg`) and the others (`proj_non_agg`). -/
def processProjections : Nat → List SqlExpr → List SqlExpr × List SqlExpr × List SqlExpr
  | _, [] => ([], [], [])
  | counter, e :: rest =>
    if containsAggregateNotInSubquery e then
      if isAlias e then
        let p := processProjections counter rest
        (e :: p.1, e :: p.2.1, p.2.2)
      else
        let ae := SqlExpr.aliasE e ("agg_result_" ++ toString counter)
        let p := processProjections (counter + 1) rest
        (ae :: p.1, ae :: p.2.1, p.2.2)
    else
      let p := processProjections counter rest
      (e :: p.1, p.2.1, e :: p.2.2)

/-- Faithful model of `SqlRewriter._rewrite_aggregate` (lines 167 to 250 of
`sql_rewriter.py`): alias the aggregate projections, wrap the select as a
subquery aliased `x`, and project each non-aggregate column from `x` plus
one call of the aggregate function on the first aggregate projection's alias
and the mapping-table literal.  `seed` stands for the initial value
`random.randint(1000, 9999)` of the alias counter.  The Python code reads
`semiring.aggregate_function` directly; it is only called when that field is
set, so the default value of `getD` is never reached from `rewrite`. -/
def rewriteAggregate (seed : Nat) (q : SqlExpr) (s : DbSemiring) : Except RewriteError SqlExpr :=
  match findSelect q with
  | none => .error (.valueError ("Expected query to be a SELECT query"))
  | some sel =>
    match sel with
    | .select projs frm whr grp hav ord lim dist =>
      let p := processProjections seed projs
      match p.2.1 with
      | [] => .error (.valueError ("No aggregate found in query"))
      | agg :: _ =>
        let sub := SqlExpr.subquery (.select p.1 frm whr grp hav ord lim dist) "x"
        .ok (.select
          (p.2.2.map (fun a => SqlExpr.column (aliasOrName a) "x")
            ++ [SqlExpr.anonymous (s.aggregate_function.getD "")
                 [SqlExpr.column (aliasOrName agg) "x", SqlExpr.litStr s.mapping_table]])
          (some sub) none none none none none false)
    | _ => .error (.valueError ("Expected query to be a SELECT query"))

/-- Faithful model of `SqlRewriter.rewrite` (lines 30 to 82 of
`sql_rewriter.py`): find the select (ValueError when there is none), reject
HAVING anywhere under it (NotImplementedError), dispatch to the
non-aggregate path unless the outer select has top-level aggregates and a
GROUP BY, and on the aggregate path require the semiring's aggregate
function (SemiringOperationNotSupportedError when absent). -/
def rewrite (seed : Nat) (q : SqlExpr) (s : DbSemiring) : Except RewriteError SqlExpr :=
  match findSelect q with
  | none => .error (.valueError ("Expected SELECT query"))
  | some outer =>
    if hasHavingNode outer then
      .error (.notImplementedError
        ("HAVING queries are not supported yet, rewrite your SQL with nested SELECTs."))
    else if !(hasTopLevelAggregates outer) || (selectGroup outer).isNone then
      rewriteNonAggregate q s
    else
      match s.aggregate_function with
      | none => .error (.semiringOperationNotSupported s.name ("aggregate queries"))
      | some _ => rewriteAggregate seed q s

/-- Claim-side declarative reading of reachability of an aggregate call: an
aggregate-function call reachable from the node without crossing a Subquery
or Select node. -/
inductive ReachableAgg : SqlExpr → Prop where
  | agg (fn : String) (args : List SqlExpr) : ReachableAgg (.aggFunc fn args)
  | anon (fn : String) (args : List SqlExpr) (e : SqlExpr) :
      e ∈ args → ReachableAgg e → ReachableAgg (.anonymous fn args)
  | aliasArg (e : SqlExpr) (n : String) : ReachableAgg e → ReachableAgg (.aliasE e n)
  | binL (op : String) (l r : SqlExpr) : ReachableAgg l → ReachableAgg (.binary op l r)
  | binR (op : String) (l r : SqlExpr) : ReachableAgg r → ReachableAgg (.binary op l r)

/-- Claim-side description of the aliasing pass of the aggregate path: the
projection list with every aggregate-bearing projection that lacked an alias
wrapped in `agg_result_<counter>`, counting up from `c`. -/
def markAliases : Nat → List SqlExpr → List SqlExpr
  | _, [] => []
  | c, e :: rest =>
    if containsAggregateNotInSubquery e then
      if isAlias e then e :: markAliases c rest
      else .aliasE e ("agg_result_" ++ toString c) :: markAliases (c + 1) rest
    else e :: markAliases c rest

/-- Database state as observed through `pg_catalog.pg_tables`: the set of
`(schema, table)` pairs that exist.  Table contents are outside the scope of
the existence claims modelled here. -/
structure PgState where
  tables : List (String × String)
deriving DecidableEq, Repr

/-- Character-list matcher for a SQL LIKE pattern with no percent sign:
underscore matches any single character, other characters match
themselves, and the lengths must agree. -/
def likeWildEq : List Char → List Char → Bool
  | [], [] => true
  | p :: ps, c :: cs => (p = '_' || p = c) && likeWildEq ps cs
  | _, _ => false

/-- SQL `name LIKE concat(percent, pat)` for a pattern `pat` containing no
percent sign: the leading percent absorbs any prefix, so the name matches
exactly when its suffix of the pattern's length matches `pat` under the
underscore wildcard.  This is the shape `_rebuild_union_mapping` uses with
`pat` the semiring's table suffix. -/
def likeEndsWith (pat name : String) : Bool :=
  decide (pat.data.length ≤ name.data.length) &&
    likeWildEq pat.data (name.data.drop (name.data.length - pat.data.length))

/-- Result of the `pg_tables` catalog query of `_rebuild_union_mapping`:
tables of the schema whose name matches LIKE against percent plus the
semiring suffix. -/
def pgTablesMatching (st : PgState) (schema : String) (s : DbSemiring) : List (String × String) :=
  st.tables.filter (fun t => t.1 = schema && likeEndsWith s.table_suffix t.2)

/-- Whether a table exists, as the `pg_tables` existence check of
`remove_semiring` observes it. -/
def tableExists (st : PgState) (schema nm : String) : Bool :=
  st.tables.any (fun t => t.1 = schema && t.2 = nm)

/-- Effect of `DROP TABLE` (with CASCADE): the table disappears.  The union
and mapping tables are created by CREATE TABLE AS and carry no dependency on
one another, so no cascaded drops arise among the tables modelled. -/
def dropTable (st : PgState) (schema nm : String) : PgState :=
  ⟨st.tables.filter (fun t => !(t.1 = schema ∧ t.2 = nm : Bool))⟩

/-- Effect of creating a table. -/
def createTable (st : PgState) (schema nm : String) : PgState :=
  ⟨st.tables ++ [(schema, nm)]⟩

/-- Faithful model of `ProvenanceRepository._rebuild_union_mapping` (lines
287 to 328 of `repository/provenance.py`) at the granularity of table
existence: list the tables matching the semiring suffix; when none match,
return false WITHOUT touching any existing union table; otherwise drop the
union table if present and recreate it. -/
def rebuild_union_mapping (st : PgState) (schema : String) (s : DbSemiring) : PgState × Bool :=
  let matching := pgTablesMatching st schema s
  if matching.isEmpty then (st, false)
  else
    (createTable (dropTable st schema s.union_table_name) schema s.union_table_name, true)

/-- Faithful model of `ProvenanceRepository.add_semiring` (lines 185 to 230):
drop a stale `tmp_provsql` scratch table, create the per-table mapping table
unless it already exists (DuplicateTable means already active), then rebuild
the union mapping.  Returns whether the mapping table was newly created. -/
def add_semiring (st : PgState) (schema table : String) (s : DbSemiring) : PgState × Bool :=
  let prov := s.get_provenance_table_name_for table
  let st0 := dropTable st schema ("tmp_provsql")
  let created := !(tableExists st0 schema prov)
  let st1 := if created then createTable st0 schema prov else st0
  ((rebuild_union_mapping st1 schema s).1, created)

/-- Faithful model of `ProvenanceRepository.remove_semiring` (lines 232 to
268): check existence of the per-table mapping table in the catalog; when it
exists, drop it (cascade) and rebuild the union mapping; return whether it
existed. -/
def remove_semiring (st : PgState) (schema table : String) (s : DbSemiring) : PgState × Bool :=
  let prov := s.get_provenance_table_name_for table
  if tableExists st schema prov then
    ((rebuild_union_mapping (dropTable st schema prov) schema s).1, true)
  else (st, false)

/-- Faithful model of `ProvenanceService.remove_annotation` (lines 44 to 61
of `services/provenance.py`): fold `remove_semiring` over the semiring list,
accumulating whether any removal happened. -/
def remove_annotation (st : PgState) (schema table : String) :
    List DbSemiring → PgState × Bool
  | [] => (st, false)
  | s :: rest =>
    let r := remove_semiring st schema table s
    let r2 := remove_annotation r.1 schema table rest
    (r2.1, r.2 || r2.2)

/-- The `why` semiring of `src/ap_explanation/semirings.py`: retrieval
function `whyprov_now`, no aggregate function, mapping table `why_mapping`. -/
def whySemiring : DbSemiring :=
  ⟨"why", "whyprov_now", none, "why_mapping"⟩

/-- The `formula` semiring of `src/ap_explanation/semirings.py`: retrieval
function `formula`, aggregate function `aggregation_formula`, mapping table
`formula_mapping`. -/
def formulaSemiring : DbSemiring :=
  ⟨"formula", "formula", some "aggregation_formula", "formula_mapping"⟩

/-- The query `SELECT col1, col2 FROM t WHERE cond = 1`. -/
def demoQuery : SqlExpr :=
  .select [.column "col1" "", .column "col2" ""] (some (.tableRef "t"))
    (some (.binary "=" (.column "cond" "") (.litNum 1))) none none none none false

/-- The query `SELECT col1, SUM(col2) AS total FROM t GROUP BY col1`. -/
def demoAggQuery : SqlExpr :=
  .select [.column "col1" "", .aliasE (.aggFunc "SUM" [.column "col2" ""]) "total"]
    (some (.tableRef "t")) none (some [.column "col1" ""]) none none none false

/-- The query `SELECT col1, SUM(col2) FROM t GROUP BY col1`, whose aggregate
projection carries no alias. -/
def demoAggNoAliasQuery : SqlExpr :=
  .select [.column "col1" "", .aggFunc "SUM" [.column "col2" ""]]
    (some (.tableRef "t")) none (some [.column "col1" ""]) none none none false

/-- The query `SELECT a FROM t GROUP BY a HAVING COUNT(*) > 1`. -/
def havingQuery : SqlExpr :=
  .select [.column "a" ""] (some (.tableRef "t")) none (some [.column "a" ""])
    (some (.binary ">" (.aggFunc "COUNT" [.star]) (.litNum 1))) none none false

/-- The query `SELECT a, (SELECT MAX(b) FROM u) FROM t`: its only aggregate
sits inside a nested subquery. -/
def subqueryAggQuery : SqlExpr :=
  .select [.column "a" "",
      .subquery (.select [.aggFunc "MAX" [.column "b" ""]] (some (.tableRef "u"))
        none none none none none false) ""]
    (some (.tableRef "t")) none none none none none false

namespace CtidMapping

theorem expectChar_length {c : Char} {l l2 : List Char}
    (h : expectChar c l = some l2) : l2.length < l.length := by
  cases l with
  | nil => exact absurd h (by simp [expectChar])
  | cons x xs =>
    by_cases hx : x = c
    · simp [expectChar, hx] at h
      subst h; simp
    · simp [expectChar, hx] at h

theorem takeDigits_length {l : List Char} {d : List Char × List Char}
    (h : takeDigits l = some d) : d.2.length ≤ l.length := by
  unfold takeDigits at h
  by_cases he : (l.takeWhile Char.isDigit).isEmpty
  · simp [he] at h
  · simp only [he, if_false] at h
    cases h
    simp

theorem matchGroup_length {cs : List Char} {row : RowCtid} {rem : List Char}
    (h : matchGroup cs = some (row, rem)) : rem.length ≤ cs.length := by
  rw [matchGroup] at h
  by_cases h0 : (cs.takeWhile tableChar).isEmpty
  · simp [h0] at h
  · rw [if_neg h0] at h
    have l0 : (cs.drop ((cs.takeWhile tableChar).length)).length ≤ cs.length := by
      simp
    rcases e1 : expectChar '@' (cs.drop (cs.takeWhile tableChar).length) with _ | r1
    · rw [e1] at h; simp at h
    rw [e1] at h; simp only [Option.some_bind] at h
    have l1 := expectChar_length e1
    rcases e2 : expectChar 'p' r1 with _ | r2
    · rw [e2] at h; simp at h
    rw [e2] at h; simp only [Option.some_bind] at h
    have l2 := expectChar_length e2
    rcases e3 : takeDigits r2 with _ | d1
    · rw [e3] at h; simp at h
    rw [e3] at h; simp only [Option.some_bind] at h
    have l3 := takeDigits_length e3
    rcases e4 : expectChar 'r' d1.2 with _ | r3
    · rw [e4] at h; simp at h
    rw [e4] at h; simp only [Option.some_bind] at h
    have l4 := expectChar_length e4
    rcases e5 : takeDigits r3 with _ | d2
    · rw [e5] at h; simp at h
    rw [e5] at h; simp only [Option.some_bind] at h
    have l5 := takeDigits_length e5
    rcases e6 : expectChar '}' d2.2 with _ | r4
    · rw [e6] at h; simp at h
    rw [e6] at h; simp only [Option.some_bind] at h
    have l6 := expectChar_length e6
    cases h
    omega

theorem mk_data (s : String) : String.mk s.data = s := by
  cases s
  rfl

theorem digitChar_toNat {d : Nat} (h : d < 10) : (Nat.digitChar d).toNat = 48 + d := by
  interval_cases d <;> rfl

theorem digitChar_isDigit {d : Nat} (h : d < 10) : (Nat.digitChar d).isDigit = true := by
  interval_cases d <;> rfl

theorem natChars_ne_nil (n : Nat) : natChars n ≠ [] := by
  unfold natChars
  by_cases h : n = 0
  · simp [h]
  · simp only [h, if_false]
    intro hc
    rw [List.reverse_eq_nil_iff, List.map_eq_nil_iff] at hc
    exact (Nat.digits_ne_nil_iff_ne_zero.mpr h) hc

theorem natChars_isDigit (n : Nat) : ∀ c ∈ natChars n, c.isDigit = true := by
  intro c hc
  unfold natChars at hc
  by_cases h : n = 0
  · simp [h] at hc
    simp [hc]
  · simp only [h, if_false, List.mem_reverse, List.mem_map] at hc
    obtain ⟨d, hd, rfl⟩ := hc
    exact digitChar_isDigit (Nat.digits_lt_base (by norm_num) hd)

theorem foldl_digits (ds : List Nat) (a : Nat) (h : ∀ d ∈ ds, d < 10) :
    List.foldl (fun x c => 10 * x + (c.toNat - 48)) a ((ds.map Nat.digitChar).reverse)
      = a * 10 ^ ds.length + Nat.ofDigits 10 ds := by
  induction ds generalizing a with
  | nil => simp [Nat.ofDigits]
  | cons d tl ih =>
    have hd : d < 10 := h d (by simp)
    have htl : ∀ x ∈ tl, x < 10 := fun x hx => h x (by simp [hx])
    simp only [List.map_cons, List.reverse_cons, List.foldl_append, List.foldl_cons,
      List.foldl_nil, ih a htl]
    rw [digitChar_toNat hd, Nat.ofDigits_cons]
    have : 48 + d - 48 = d := by omega
    rw [this, List.length_cons, pow_succ]
    ring

theorem parseDigits_natChars (n : Nat) : parseDigits (natChars n) = n := by
  unfold parseDigits natChars
  by_cases h : n = 0
  · simp [h]
  · simp only [h, if_false]
    rw [foldl_digits _ 0 (fun d hd => Nat.digits_lt_base (by norm_num) hd)]
    simp [Nat.ofDigits_digits]

theorem takeWhile_all_append {p : Char → Bool} {xs : List Char} (h : ∀ c ∈ xs, p c = true)
    {y : Char} (hy : p y = false) (ys : List Char) :
    (xs ++ y :: ys).takeWhile p = xs := by
  induction xs with
  | nil => simp [List.takeWhile_cons, hy]
  | cons x tl ih =>
    have hx : p x = true := h x (by simp)
    simp only [List.cons_append, List.takeWhile_cons, hx]
    rw [ih (fun c hc => h c (by simp [hc]))]
    simp

theorem drop_len_append (xs zs : List Char) : (xs ++ zs).drop xs.length = zs := by
  simp

/-- Successful match of one well-formed contribution token followed by
arbitrary remaining characters. -/
theorem matchGroup_group (t : String) (hne : t.data ≠ [])
    (hval : ∀ c ∈ t.data, tableChar c = true) (p r : Nat) (rest : List Char) :
    matchGroup (t.data ++ '@' :: 'p' :: (natChars p ++ 'r' :: (natChars r ++ '}' :: rest)))
      = some (⟨t, p, r⟩, rest) := by
  have htake : (t.data ++ '@' :: 'p' :: (natChars p ++ 'r' :: (natChars r ++ '}' :: rest))).takeWhile tableChar
      = t.data := takeWhile_all_append hval (by decide) _
  have hdrop : (t.data ++ '@' :: 'p' :: (natChars p ++ 'r' :: (natChars r ++ '}' :: rest))).drop t.data.length
      = '@' :: 'p' :: (natChars p ++ 'r' :: (natChars r ++ '}' :: rest)) := drop_len_append _ _
  have hp1 : (natChars p ++ 'r' :: (natChars r ++ '}' :: rest)).takeWhile Char.isDigit
      = natChars p := takeWhile_all_append (natChars_isDigit p) (by decide) _
  have hp2 : (natChars p ++ 'r' :: (natChars r ++ '}' :: rest)).drop ((natChars p).length)
      = 'r' :: (natChars r ++ '}' :: rest) := drop_len_append _ _
  have hr1 : (natChars r ++ '}' :: rest).takeWhile Char.isDigit
      = natChars r := takeWhile_all_append (natChars_isDigit r) (by decide) _
  have hr2 : (natChars r ++ '}' :: rest).drop ((natChars r).length)
      = '}' :: rest := drop_len_append _ _
  rw [matchGroup]
  rw [htake]
  rw [if_neg (by simpa using hne)]
  rw [hdrop]
  rw [show expectChar '@' ('@' :: 'p' :: (natChars p ++ 'r' :: (natChars r ++ '}' :: rest)))
      = some ('p' :: (natChars p ++ 'r' :: (natChars r ++ '}' :: rest))) from by simp [expectChar]]
  rw [Option.some_bind]
  rw [show expectChar 'p' ('p' :: (natChars p ++ 'r' :: (natChars r ++ '}' :: rest)))
      = some (natChars p ++ 'r' :: (natChars r ++ '}' :: rest)) from by simp [expectChar]]
  rw [Option.some_bind]
  rw [show takeDigits (natChars p ++ 'r' :: (natChars r ++ '}' :: rest))
      = some (natChars p, 'r' :: (natChars r ++ '}' :: rest)) from by
    simp only [takeDigits, hp1, hp2]
    rw [if_neg (by simpa using natChars_ne_nil p)]]
  rw [Option.some_bind]
  rw [show expectChar 'r' ('r' :: (natChars r ++ '}' :: rest))
      = some (natChars r ++ '}' :: rest) from by simp [expectChar]]
  rw [Option.some_bind]
  rw [show takeDigits (natChars r ++ '}' :: rest) = some (natChars r, '}' :: rest) from by
    simp only [takeDigits, hr1, hr2]
    rw [if_neg (by simpa using natChars_ne_nil r)]]
  rw [Option.some_bind]
  rw [show expectChar '}' ('}' :: rest) = some rest from by simp [expectChar]]
  rw [Option.some_bind]
  simp [mk_data, parseDigits_natChars]

theorem scanEqAux_nil (f : Nat) : scanEqAux f [] = [] := by
  cases f <;> rfl

theorem scanEqAux_congr : ∀ (f1 : Nat), ∀ (f2 : Nat) (cs : List Char),
    cs.length ≤ f1 → cs.length ≤ f2 → scanEqAux f1 cs = scanEqAux f2 cs := by
  intro f1
  induction f1 with
  | zero =>
    intro f2 cs h1 _
    have : cs = [] := List.eq_nil_of_length_eq_zero (Nat.le_zero.mp h1)
    subst this
    rw [scanEqAux_nil, scanEqAux_nil]
  | succ f ih =>
    intro f2 cs h1 h2
    cases cs with
    | nil => rw [scanEqAux_nil, scanEqAux_nil]
    | cons c rest =>
      cases f2 with
      | zero => simp at h2
      | succ f2p =>
        have hr : rest.length ≤ f := by simp at h1; omega
        have hr2 : rest.length ≤ f2p := by simp at h2; omega
        simp only [scanEqAux]
        by_cases hc : c = '{'
        · rw [if_pos hc, if_pos hc]
          rcases hm : matchGroup rest with _ | rr
          · exact ih f2p rest hr hr2
          · obtain ⟨row, rem⟩ := rr
            have hlen := matchGroup_length hm
            dsimp only
            rw [ih f2p rem (le_trans hlen hr) (le_trans hlen hr2)]
        · rw [if_neg hc, if_neg hc]
          exact ih f2p rest hr hr2

theorem scanEq_cons_not_brace {c : Char} (hc : ¬(c = '{')) (rest : List Char) :
    scanEq (c :: rest) = scanEq rest := by
  show scanEqAux (rest.length + 1) (c :: rest) = _
  simp only [scanEqAux]
  rw [if_neg hc]
  rfl

theorem scanEq_cons_brace_none {rest : List Char} (hm : matchGroup rest = none) :
    scanEq ('{' :: rest) = scanEq rest := by
  show scanEqAux (rest.length + 1) ('{' :: rest) = _
  simp only [scanEqAux, hm]
  simp only [if_true]
  rfl

theorem scanEq_cons_brace_some {rest rem : List Char} {row : RowCtid}
    (hm : matchGroup rest = some (row, rem)) :
    scanEq ('{' :: rest) = row :: scanEq rem := by
  show scanEqAux (rest.length + 1) ('{' :: rest) = _
  simp only [scanEqAux, hm]
  simp only [if_true]
  exact congrArg (row :: ·) (scanEqAux_congr rest.length rem.length rem (matchGroup_length hm) le_rfl)

theorem groupChars_append (t : String) (p r : Nat) (rest : List Char) :
    groupChars t p r ++ rest
      = '{' :: (t.data ++ '@' :: 'p' :: (natChars p ++ 'r' :: (natChars r ++ '}' :: rest))) := by
  simp [groupChars]

/-- One well-formed token at the head of the scan contributes exactly its row
reference, and scanning continues right after it. -/
theorem scanEq_group (t : String) (hne : t.data ≠ [])
    (hval : ∀ c ∈ t.data, tableChar c = true) (p r : Nat) (rest : List Char) :
    scanEq (groupChars t p r ++ rest) = ⟨t, p, r⟩ :: scanEq rest := by
  rw [groupChars_append]
  exact scanEq_cons_brace_some (matchGroup_group t hne hval p r rest)

theorem scanEq_no_brace : ∀ (cs : List Char), (∀ c ∈ cs, ¬(c = '{')) → scanEq cs = [] := by
  intro cs
  induction cs with
  | nil => intro _; rfl
  | cons c rest ih =>
    intro h
    rw [scanEq_cons_not_brace (h c (by simp)) rest]
    exact ih (fun x hx => h x (by simp [hx]))

theorem matchGroup_malformed (w : List Char) (hw : ∀ c ∈ w, tableChar c = true) :
    matchGroup (w ++ ['}']) = none := by
  cases w with
  | nil => decide
  | cons x xs =>
    rw [matchGroup]
    have htake : ((x :: xs) ++ ['}']).takeWhile tableChar = x :: xs := by
      have : ((x :: xs) ++ '}' :: ([] : List Char)).takeWhile tableChar = x :: xs :=
        takeWhile_all_append hw (by decide) []
      simpa using this
    rw [htake]
    rw [if_neg (by simp)]
    have hdrop : ((x :: xs) ++ ['}']).drop (x :: xs).length = ['}'] := drop_len_append _ _
    rw [hdrop]
    rw [show expectChar '@' ['}'] = none from by decide]
    rfl

/-- A brace-delimited fragment whose body has no at-sign and no brace is
skipped entirely by the scan. -/
theorem scanEq_malformed_fragment (w : List Char) (hw : ∀ c ∈ w, tableChar c = true) :
    scanEq ('{' :: (w ++ ['}'])) = [] := by
  rw [scanEq_cons_brace_none (matchGroup_malformed w hw)]
  apply scanEq_no_brace
  intro c hc
  rcases List.mem_append.mp hc with h | h
  · have := hw c h
    simp [tableChar] at this
    intro hcontr
    exact this.1.1 hcontr
  · simp at h
    subst h
    decide

/-- Scanning the concatenation of well-formed tokens followed by any
remaining characters yields the tokens' rows followed by the scan of the
remainder. -/
theorem scanEq_tokens_append : ∀ (groups : List (String × Nat × Nat)),
    (∀ g ∈ groups, g.1.data ≠ [] ∧ NoSpecialChars g.1) → ∀ (rest : List Char),
    scanEq ((groups.map (fun g => groupChars g.1 g.2.1 g.2.2)).flatten ++ rest)
      = groups.map (fun g => (⟨g.1, g.2.1, g.2.2⟩ : RowCtid)) ++ scanEq rest := by
  intro groups
  induction groups with
  | nil => intro _ rest; simp
  | cons g tl ih =>
    intro h rest
    obtain ⟨hne, hval⟩ := h g (by simp)
    simp only [List.map_cons, List.flatten_cons, List.append_assoc]
    rw [scanEq_group g.1 hne hval g.2.1 g.2.2 _]
    rw [ih (fun x hx => h x (by simp [hx])) rest]
    simp

end CtidMapping

/-- C6 counterexample: the claim quantifies over every table name without
at-sign or braces, which includes the empty name, but the regex class
`[^{}@]+` of `decode_equation` requires at least one table character, so the
token built from the empty table name decodes to the empty list instead of
one row reference. -/
theorem decode_equation_empty_table_counterexample :
    CtidMapping.decode_equation (CtidMapping.encodeToken "" 0 0) = []
    ∧ CtidMapping.decode_equation (CtidMapping.encodeToken "" 0 0)
        ≠ [(⟨"", 0, 0⟩ : RowCtid)] := by
  constructor
  · decide
  · decide

/-- C6 (amended to non-empty table names): for every list of groups with
non-empty table names free of at-sign and braces, decoding the concatenation
of the encoded tokens `{table@p<page>r<row>}` yields exactly one RowCtid per
group, in order of appearance; with a single group this is the round-trip of
the claim. -/
theorem decode_equation_roundtrip (groups : List (String × Nat × Nat))
    (h : ∀ g ∈ groups, g.1.data ≠ [] ∧ CtidMapping.NoSpecialChars g.1) :
    CtidMapping.decode_equation (CtidMapping.encodeTokens groups)
      = groups.map (fun g => (⟨g.1, g.2.1, g.2.2⟩ : RowCtid)) := by
  have h2 := CtidMapping.scanEq_tokens_append groups h []
  have h0 : CtidMapping.scanEq ([] : List Char) = [] := rfl
  rw [List.append_nil, h0, List.append_nil] at h2
  exact h2

theorem decode_equation_roundtrip_witness :
    CtidMapping.decode_equation (CtidMapping.encodeTokens [("t1", 5, 7), ("t2", 0, 12)])
      = [(⟨"t1", 5, 7⟩ : RowCtid), (⟨"t2", 0, 12⟩ : RowCtid)] := by
  have := decode_equation_roundtrip [("t1", 5, 7), ("t2", 0, 12)] (by decide)
  simpa using this

/-- C7 counterexample: an input containing the malformed brace-delimited
fragment `{bad}` (no at-sign separator) does not make `decode_equation` fail;
the function silently omits the fragment and returns only the well-formed
group, contradicting the claim that a descriptive decode error is raised. -/
theorem decode_equation_silent_skip_counterexample :
    CtidMapping.decode_equation ("\x7bt@p1r2\x7d\x7bbad\x7d")
      = [(⟨"t", 1, 2⟩ : RowCtid)] := by
  decide

/-- C7 (amended): `decode_equation` never raises; it silently skips
brace-delimited fragments that do not match `{table@p<digits>r<digits>}` and
returns the well-formed groups in order.  Only the single-value `decode`
raises a descriptive ValueError, for instance on values missing the at-sign
separator. -/
theorem decode_malformed_behaviour
    (v : String) (hv : v.data.contains '@' = false)
    (groups : List (String × Nat × Nat))
    (hg : ∀ g ∈ groups, g.1.data ≠ [] ∧ CtidMapping.NoSpecialChars g.1)
    (w : List Char) (hw : ∀ c ∈ w, CtidMapping.tableChar c = true) :
    CtidMapping.decode v = .error ("Invalid provenance format: " ++ v)
    ∧ CtidMapping.decode_equation
        (String.mk ((groups.map (fun g => CtidMapping.groupChars g.1 g.2.1 g.2.2)).flatten
          ++ '{' :: (w ++ ['}'])))
        = groups.map (fun g => (⟨g.1, g.2.1, g.2.2⟩ : RowCtid)) := by
  constructor
  · simp only [CtidMapping.decode]
    rw [if_pos hv]
  · show CtidMapping.scanEq _ = _
    rw [CtidMapping.scanEq_tokens_append groups hg ('{' :: (w ++ ['}']))]
    rw [CtidMapping.scanEq_malformed_fragment w hw]
    simp

theorem decode_malformed_behaviour_witness :
    CtidMapping.decode ("nope") = .error ("Invalid provenance format: nope")
    ∧ CtidMapping.decode_equation
        (String.mk ((([("t", 1, 2)] : List (String × Nat × Nat)).map
            (fun g => CtidMapping.groupChars g.1 g.2.1 g.2.2)).flatten
          ++ '{' :: (['b', 'a', 'd'] ++ ['}'])))
        = [(⟨"t", 1, 2⟩ : RowCtid)] := by
  have := decode_malformed_behaviour ("nope") (by decide) [("t", 1, 2)] (by decide)
    ['b', 'a', 'd'] (by decide)
  simpa using this

theorem anyContains_iff (l : List SqlExpr) :
    anyContainsAggregate l = true ↔ ∃ e ∈ l, containsAggregateNotInSubquery e = true := by
  induction l with
  | nil => simp [anyContainsAggregate]
  | cons e es ih =>
    simp only [anyContainsAggregate, Bool.or_eq_true, ih, List.mem_cons]
    constructor
    · rintro (h | ⟨a, ha, hc⟩)
      · exact ⟨e, Or.inl rfl, h⟩
      · exact ⟨a, Or.inr ha, hc⟩
    · rintro ⟨a, (rfl | ha), hc⟩
      · exact Or.inl hc
      · exact Or.inr ⟨a, ha, hc⟩

theorem contains_eq_reachable : ∀ (e : SqlExpr),
    containsAggregateNotInSubquery e = true ↔ ReachableAgg e := by
  have main : ∀ (n : Nat) (e : SqlExpr), sizeOf e ≤ n →
      (containsAggregateNotInSubquery e = true ↔ ReachableAgg e) := by
    intro n
    induction n with
    | zero =>
      intro e he
      exfalso
      cases e <;> simp at he
    | succ n ih =>
      intro e he
      cases e with
      | column nm tbl =>
        exact ⟨fun h => by simp [containsAggregateNotInSubquery] at h, fun h => by cases h⟩
      | litStr v =>
        exact ⟨fun h => by simp [containsAggregateNotInSubquery] at h, fun h => by cases h⟩
      | litNum v =>
        exact ⟨fun h => by simp [containsAggregateNotInSubquery] at h, fun h => by cases h⟩
      | star =>
        exact ⟨fun h => by simp [containsAggregateNotInSubquery] at h, fun h => by cases h⟩
      | tableRef nm =>
        exact ⟨fun h => by simp [containsAggregateNotInSubquery] at h, fun h => by cases h⟩
      | command txt =>
        exact ⟨fun h => by simp [containsAggregateNotInSubquery] at h, fun h => by cases h⟩
      | subquery inner al =>
        exact ⟨fun h => by simp [containsAggregateNotInSubquery] at h, fun h => by cases h⟩
      | select projs frm whr grp hav ord lim dist =>
        exact ⟨fun h => by simp [containsAggregateNotInSubquery] at h, fun h => by cases h⟩
      | aggFunc fn args =>
        exact ⟨fun _ => .agg fn args, fun _ => by simp [containsAggregateNotInSubquery]⟩
      | aliasE e1 nm =>
        have hsz : sizeOf e1 ≤ n := by
          simp at he
          omega
        constructor
        · intro h
          exact .aliasArg e1 nm ((ih e1 hsz).mp
            (by simpa [containsAggregateNotInSubquery] using h))
        · intro h
          cases h with
          | aliasArg _ _ hr =>
            simpa [containsAggregateNotInSubquery] using (ih e1 hsz).mpr hr
      | binary op l r =>
        have hszl : sizeOf l ≤ n := by simp at he; omega
        have hszr : sizeOf r ≤ n := by simp at he; omega
        constructor
        · intro h
          simp only [containsAggregateNotInSubquery, Bool.or_eq_true] at h
          rcases h with h | h
          · exact .binL op l r ((ih l hszl).mp h)
          · exact .binR op l r ((ih r hszr).mp h)
        · intro h
          cases h with
          | binL _ _ _ hr =>
            simp only [containsAggregateNotInSubquery, Bool.or_eq_true]
            exact Or.inl ((ih l hszl).mpr hr)
          | binR _ _ _ hr =>
            simp only [containsAggregateNotInSubquery, Bool.or_eq_true]
            exact Or.inr ((ih r hszr).mpr hr)
      | anonymous fn args =>
        have hsz : ∀ a ∈ args, sizeOf a ≤ n := by
          intro a ha
          have h1 := List.sizeOf_lt_of_mem ha
          simp at he
          omega
        constructor
        · intro h
          simp only [containsAggregateNotInSubquery] at h
          obtain ⟨a, ha, hc⟩ := (anyContains_iff args).mp h
          exact .anon fn args a ha ((ih a (hsz a ha)).mp hc)
        · intro h
          cases h with
          | anon _ _ e hmem hr =>
            simp only [containsAggregateNotInSubquery]
            exact (anyContains_iff args).mpr ⟨e, hmem, (ih e (hsz e hmem)).mpr hr⟩
  exact fun e => main (sizeOf e) e le_rfl

theorem containsAgg_aliasE (e : SqlExpr) (nm : String) :
    containsAggregateNotInSubquery (.aliasE e nm) = containsAggregateNotInSubquery e := rfl

theorem processProjections_fst : ∀ (c : Nat) (l : List SqlExpr),
    (processProjections c l).1 = markAliases c l := by
  intro c l
  induction l generalizing c with
  | nil => rfl
  | cons e rest ih =>
    simp only [processProjections, markAliases]
    by_cases hc : containsAggregateNotInSubquery e
    · rw [if_pos hc, if_pos hc]
      by_cases ha : isAlias e
      · rw [if_pos ha, if_pos ha]
        simp [ih c]
      · rw [if_neg ha, if_neg ha]
        simp [ih (c + 1)]
    · rw [if_neg hc, if_neg hc]
      simp [ih c]

theorem processProjections_nonagg : ∀ (c : Nat) (l : List SqlExpr),
    (processProjections c l).2.2 = l.filter (fun e => !(containsAggregateNotInSubquery e)) := by
  intro c l
  induction l generalizing c with
  | nil => rfl
  | cons e rest ih =>
    simp only [processProjections, List.filter_cons]
    by_cases hc : containsAggregateNotInSubquery e
    · rw [if_pos hc]
      have : (!(containsAggregateNotInSubquery e)) = false := by simp [hc]
      rw [this]
      simp only [Bool.false_eq_true, if_false]
      by_cases ha : isAlias e
      · rw [if_pos ha]; simp [ih c]
      · rw [if_neg ha]; simp [ih (c + 1)]
    · rw [if_neg hc]
      have : (!(containsAggregateNotInSubquery e)) = true := by simp [hc]
      rw [this]
      simp [ih c]

theorem processProjections_agg : ∀ (c : Nat) (l : List SqlExpr),
    (processProjections c l).2.1
      = (markAliases c l).filter containsAggregateNotInSubquery := by
  intro c l
  induction l generalizing c with
  | nil => rfl
  | cons e rest ih =>
    simp only [processProjections, markAliases]
    by_cases hc : containsAggregateNotInSubquery e
    · rw [if_pos hc, if_pos hc]
      by_cases ha : isAlias e
      · rw [if_pos ha, if_pos ha]
        simp only [List.filter_cons, hc, if_true]
        simp [ih c]
      · rw [if_neg ha, if_neg ha]
        have hca : containsAggregateNotInSubquery
            (.aliasE e ("agg_result_" ++ toString c)) = true := by
          rw [containsAgg_aliasE]; exact hc
        simp only [List.filter_cons, hca, if_true]
        simp [ih (c + 1)]
    · rw [if_neg hc, if_neg hc]
      simp only [List.filter_cons, hc]
      simp [ih c, hc]

theorem find?_eq_head?_filter {α : Type} (p : α → Bool) : ∀ (l : List α),
    l.find? p = (l.filter p).head? := by
  intro l
  induction l with
  | nil => rfl
  | cons a rest ih =>
    by_cases hp : p a
    · simp [List.find?_cons_of_pos _ hp, List.filter_cons, hp]
    · simp only [List.find?_cons_of_neg _ hp, List.filter_cons, hp]
      simp only [Bool.false_eq_true, if_false]
      exact ih

theorem markAliases_filter_ne_nil (c : Nat) (l : List SqlExpr)
    (h : l.any containsAggregateNotInSubquery = true) :
    (markAliases c l).filter containsAggregateNotInSubquery ≠ [] := by
  induction l generalizing c with
  | nil => simp at h
  | cons e rest ih =>
    simp only [markAliases]
    by_cases hc : containsAggregateNotInSubquery e
    · rw [if_pos hc]
      by_cases ha : isAlias e
      · rw [if_pos ha]
        simp [List.filter_cons, hc]
      · rw [if_neg ha]
        have hca : containsAggregateNotInSubquery
            (.aliasE e ("agg_result_" ++ toString c)) = true := by
          rw [containsAgg_aliasE]; exact hc
        simp [List.filter_cons, hca]
    · rw [if_neg hc]
      have hrest : rest.any containsAggregateNotInSubquery = true := by
        simp only [List.any_cons, Bool.or_eq_true] at h
        rcases h with h | h
        · exact absurd h hc
        · exact h
      simp only [List.filter_cons, hc]
      simp only [Bool.false_eq_true, if_false]
      exact ih c hrest

/-- C1: for every non-aggregate SELECT (no projection with a reachable
aggregate) without HAVING and every semiring, `rewrite` returns a SELECT
whose projection list is the original list plus one trailing call
`retrieval_function(provenance(), mapping_table)`, with every other clause
(FROM, WHERE, GROUP BY, HAVING, ORDER BY, LIMIT, DISTINCT) unchanged. -/
theorem rewrite_nonAggregate_appends_retrieval
    (seed : Nat) (s : DbSemiring) (projs : List SqlExpr) (frm whr : Option SqlExpr)
    (grp : Option (List SqlExpr)) (hav : Option SqlExpr) (ord : Option (List SqlExpr))
    (lim : Option SqlExpr) (dist : Bool)
    (hHav : hasHavingNode (.select projs frm whr grp hav ord lim dist) = false)
    (hAgg : projs.any containsAggregateNotInSubquery = false) :
    rewrite seed (.select projs frm whr grp hav ord lim dist) s
      = .ok (.select (projs ++ [provenanceProjection s]) frm whr grp hav ord lim dist) := by
  simp only [rewrite, findSelect]
  rw [if_neg (by simp [hHav])]
  rw [if_pos (by simp [hasTopLevelAggregates, selectProjs, hAgg])]
  rfl

theorem rewrite_nonAggregate_appends_retrieval_witness :
    rewrite 1000 demoQuery whySemiring
      = .ok (.select [.column "col1" "", .column "col2" "", provenanceProjection whySemiring]
          (some (.tableRef "t")) (some (.binary "=" (.column "cond" "") (.litNum 1)))
          none none none none false) := by
  have := rewrite_nonAggregate_appends_retrieval 1000 whySemiring
      [.column "col1" "", .column "col2" ""] (some (.tableRef "t"))
      (some (.binary "=" (.column "cond" "") (.litNum 1))) none none none none false rfl rfl
  exact this

/-- C10: on the non-aggregate path the rewrite does not depend on the random
alias seed, so two calls with the same query and semiring give the same
output; the seed is only consulted on the aggregate path. -/
theorem rewrite_non_aggregate_deterministic
    (seed1 seed2 : Nat) (s : DbSemiring) (projs : List SqlExpr) (frm whr : Option SqlExpr)
    (grp : Option (List SqlExpr)) (hav : Option SqlExpr) (ord : Option (List SqlExpr))
    (lim : Option SqlExpr) (dist : Bool)
    (hPath : projs.any containsAggregateNotInSubquery = false ∨ grp = none) :
    rewrite seed1 (.select projs frm whr grp hav ord lim dist) s
      = rewrite seed2 (.select projs frm whr grp hav ord lim dist) s := by
  simp only [rewrite, findSelect]
  have hcond : (!(hasTopLevelAggregates (SqlExpr.select projs frm whr grp hav ord lim dist))
      || (selectGroup (SqlExpr.select projs frm whr grp hav ord lim dist)).isNone) = true := by
    rcases hPath with h | h
    · simp [hasTopLevelAggregates, selectProjs, h]
    · simp [selectGroup, h]
  by_cases hH : hasHavingNode (SqlExpr.select projs frm whr grp hav ord lim dist) = true
  · rw [if_pos hH, if_pos hH]
  · rw [if_neg hH, if_neg hH, if_pos hcond, if_pos hcond]

theorem rewrite_non_aggregate_deterministic_witness :
    rewrite 1000 demoQuery whySemiring = rewrite 9999 demoQuery whySemiring := by
  have := rewrite_non_aggregate_deterministic 1000 9999 whySemiring
      [.column "col1" "", .column "col2" ""] (some (.tableRef "t"))
      (some (.binary "=" (.column "cond" "") (.litNum 1))) none none none none false
      (Or.inl rfl)
  exact this

/-- C4: an aggregate query (top-level aggregate plus GROUP BY, no HAVING)
against a semiring without an aggregate function makes `rewrite` fail with
`SemiringOperationNotSupportedError` carrying the semiring name and the
operation `aggregate queries`, whose message names both; no rewritten query
is returned. -/
theorem rewrite_aggregate_without_support_fails
    (seed : Nat) (s : DbSemiring) (projs : List SqlExpr) (frm whr : Option SqlExpr)
    (gl : List SqlExpr) (hav : Option SqlExpr) (ord : Option (List SqlExpr))
    (lim : Option SqlExpr) (dist : Bool)
    (hHav : hasHavingNode (.select projs frm whr (some gl) hav ord lim dist) = false)
    (hAgg : projs.any containsAggregateNotInSubquery = true)
    (hAf : s.aggregate_function = none) :
    rewrite seed (.select projs frm whr (some gl) hav ord lim dist) s
      = .error (.semiringOperationNotSupported s.name ("aggregate queries"))
    ∧ (RewriteError.semiringOperationNotSupported s.name ("aggregate queries")).message
      = "The semiring \x27" ++ s.name ++ "\x27 does not support " ++ "aggregate queries"
        ++ ". Please use a different semiring that supports this operation." := by
  constructor
  · simp only [rewrite, findSelect]
    rw [if_neg (by simp [hHav])]
    rw [if_neg (by simp [hasTopLevelAggregates, selectProjs, hAgg, selectGroup])]
    rw [hAf]
  · rfl

theorem rewrite_aggregate_without_support_fails_witness :
    rewrite 1000 demoAggQuery whySemiring
      = .error (.semiringOperationNotSupported "why" ("aggregate queries")) := by
  have := rewrite_aggregate_without_support_fails 1000 whySemiring
      [.column "col1" "", .aliasE (.aggFunc "SUM" [.column "col2" ""]) "total"]
      (some (.tableRef "t")) none [.column "col1" ""] none none none false rfl rfl rfl
  exact this.1

/-- C2: for every aggregate SELECT (GROUP BY present, at least one top-level
aggregate projection, no HAVING) and semiring with an aggregate function,
`rewrite` returns `SELECT <non-agg cols qualified by x>,
aggregate_function(x.<alias of first aggregate projection>, mapping_table)
FROM (q with aggregate projections aliased) AS x`: the non-aggregate output
columns are the original non-aggregate projections, in their original
relative order, and only the first aggregate-bearing projection (`find?` on
the aliased list) is wired to the mapping function. -/
theorem rewrite_aggregate_wraps_and_maps_first
    (seed : Nat) (s : DbSemiring) (af : String) (hAf : s.aggregate_function = some af)
    (projs : List SqlExpr) (frm whr : Option SqlExpr) (gl : List SqlExpr)
    (hav : Option SqlExpr) (ord : Option (List SqlExpr)) (lim : Option SqlExpr) (dist : Bool)
    (hHav : hasHavingNode (.select projs frm whr (some gl) hav ord lim dist) = false)
    (hAgg : projs.any containsAggregateNotInSubquery = true)
    (agg : SqlExpr)
    (hFirst : (markAliases seed projs).find? containsAggregateNotInSubquery = some agg) :
    rewrite seed (.select projs frm whr (some gl) hav ord lim dist) s
      = .ok (.select
          ((projs.filter (fun e => !(containsAggregateNotInSubquery e))).map
              (fun a => SqlExpr.column (aliasOrName a) "x")
            ++ [SqlExpr.anonymous af
                 [SqlExpr.column (aliasOrName agg) "x", SqlExpr.litStr s.mapping_table]])
          (some (.subquery
            (.select (markAliases seed projs) frm whr (some gl) hav ord lim dist) "x"))
          none none none none none false) := by
  have hhead : ((markAliases seed projs).filter containsAggregateNotInSubquery).head?
      = some agg := by
    rw [← find?_eq_head?_filter]
    exact hFirst
  obtain ⟨tl, htl⟩ : ∃ tl, (markAliases seed projs).filter containsAggregateNotInSubquery
      = agg :: tl := by
    rcases hfl : (markAliases seed projs).filter containsAggregateNotInSubquery with _ | ⟨a, t⟩
    · rw [hfl] at hhead
      simp at hhead
    · rw [hfl] at hhead
      simp only [List.head?_cons, Option.some.injEq] at hhead
      exact ⟨t, by rw [hhead]⟩
  simp only [rewrite, findSelect]
  rw [if_neg (by simp [hHav])]
  rw [if_neg (by simp [hasTopLevelAggregates, selectProjs, hAgg, selectGroup])]
  rw [hAf]
  simp only [rewriteAggregate, findSelect]
  rw [processProjections_agg, processProjections_fst, processProjections_nonagg, htl]
  rw [hAf]
  rfl

theorem rewrite_aggregate_wraps_and_maps_first_witness :
    rewrite 1000 demoAggNoAliasQuery formulaSemiring
      = .ok (.select
          [.column "col1" "x",
           .anonymous "aggregation_formula"
             [.column "agg_result_1000" "x", .litStr "formula_mapping"]]
          (some (.subquery
            (.select [.column "col1" "",
                .aliasE (.aggFunc "SUM" [.column "col2" ""]) "agg_result_1000"]
              (some (.tableRef "t")) none (some [.column "col1" ""]) none none none false) "x"))
          none none none none none false) := by
  have := rewrite_aggregate_wraps_and_maps_first 1000 formulaSemiring "aggregation_formula" rfl
      [.column "col1" "", .aggFunc "SUM" [.column "col2" ""]]
      (some (.tableRef "t")) none [.column "col1" ""] none none none false rfl rfl
      (.aliasE (.aggFunc "SUM" [.column "col2" ""]) "agg_result_1000") rfl
  exact this

/-- C5: with no HAVING in play, the aggregate path is taken exactly when some
outer projection contains an aggregate call reachable without crossing a
Subquery or Select node (the boolean scan agrees with the declarative
reachability relation) AND the outer SELECT has a GROUP BY; otherwise, in
particular when the only aggregates sit inside nested subqueries or when
GROUP BY is absent, the non-aggregate path is taken. -/
theorem rewrite_path_selection
    (seed : Nat) (s : DbSemiring) (projs : List SqlExpr) (frm whr : Option SqlExpr)
    (grp : Option (List SqlExpr)) (hav : Option SqlExpr) (ord : Option (List SqlExpr))
    (lim : Option SqlExpr) (dist : Bool)
    (hHav : hasHavingNode (.select projs frm whr grp hav ord lim dist) = false) :
    (projs.any containsAggregateNotInSubquery = true ↔ ∃ e ∈ projs, ReachableAgg e)
    ∧ ((projs.any containsAggregateNotInSubquery = false ∨ grp = none) →
        rewrite seed (.select projs frm whr grp hav ord lim dist) s
          = rewriteNonAggregate (.select projs frm whr grp hav ord lim dist) s)
    ∧ (projs.any containsAggregateNotInSubquery = true → grp ≠ none →
        rewrite seed (.select projs frm whr grp hav ord lim dist) s
          = (match s.aggregate_function with
             | none => .error (.semiringOperationNotSupported s.name ("aggregate queries"))
             | some _ =>
                rewriteAggregate seed (.select projs frm whr grp hav ord lim dist) s)) := by
  refine ⟨?_, ?_, ?_⟩
  · constructor
    · intro h
      rw [List.any_eq_true] at h
      obtain ⟨e, he, hc⟩ := h
      exact ⟨e, he, (contains_eq_reachable e).mp hc⟩
    · rintro ⟨e, he, hr⟩
      rw [List.any_eq_true]
      exact ⟨e, he, (contains_eq_reachable e).mpr hr⟩
  · intro hPath
    simp only [rewrite, findSelect]
    rw [if_neg (by simp [hHav])]
    have hcond : (!(hasTopLevelAggregates (SqlExpr.select projs frm whr grp hav ord lim dist))
        || (selectGroup (SqlExpr.select projs frm whr grp hav ord lim dist)).isNone) = true := by
      rcases hPath with h | h
      · simp [hasTopLevelAggregates, selectProjs, h]
      · simp [selectGroup, h]
    rw [if_pos hcond]
  · intro hAgg hGrp
    obtain ⟨gl, rfl⟩ := Option.ne_none_iff_exists'.mp hGrp
    simp only [rewrite, findSelect]
    rw [if_neg (by simp [hHav])]
    rw [if_neg (by simp [hasTopLevelAggregates, selectProjs, hAgg, selectGroup])]

theorem rewrite_path_selection_witness :
    rewrite 1000 subqueryAggQuery whySemiring
      = rewriteNonAggregate subqueryAggQuery whySemiring := by
  have := rewrite_path_selection 1000 whySemiring
      [.column "a" "",
       .subquery (.select [.aggFunc "MAX" [.column "b" ""]] (some (.tableRef "u"))
         none none none none none false) ""]
      (some (.tableRef "t")) none none none none none false rfl
  exact this.2.1 (Or.inl rfl)

/-- C3 counterexample: the claim says `rewrite` on a HAVING query fails with
`UnsupportedQueryError`, but on the concrete HAVING query the raised
exception is a `NotImplementedError`; the codebase defines no exception
class named UnsupportedQueryError, so no failure of `rewrite` ever is one. -/
theorem rewrite_having_error_class_counterexample :
    rewrite 1000 havingQuery whySemiring
      = .error (.notImplementedError
          ("HAVING queries are not supported yet, rewrite your SQL with nested SELECTs."))
    ∧ isUnsupportedQueryError (.notImplementedError
          ("HAVING queries are not supported yet, rewrite your SQL with nested SELECTs."))
        = false := by
  constructor
  · rfl
  · rfl

/-- C3 (amended): `rewrite` fails with Python `ValueError` when the parsed
statement contains no SELECT, and with Python `NotImplementedError` whenever
the found outer SELECT contains a HAVING clause anywhere below it,
regardless of aggregate shape; conversely for SELECT-rooted queries without
HAVING the only possible failure is `SemiringOperationNotSupportedError`.
The code defines no `UnsupportedQueryError`. -/
theorem rewrite_error_classes (seed : Nat) (s : DbSemiring) (q : SqlExpr) :
    (findSelect q = none → rewrite seed q s = .error (.valueError ("Expected SELECT query")))
    ∧ (∀ outer, findSelect q = some outer → hasHavingNode outer = true →
        rewrite seed q s = .error (.notImplementedError
          ("HAVING queries are not supported yet, rewrite your SQL with nested SELECTs.")))
    ∧ (∀ projs frm whr grp hav ord lim dist,
        q = .select projs frm whr grp hav ord lim dist →
        hasHavingNode q = false →
        ∀ e, rewrite seed q s = .error e →
          e.className = "SemiringOperationNotSupportedError") := by
  refine ⟨?_, ?_, ?_⟩
  · intro h
    simp only [rewrite, h]
  · intro outer hfind hH
    simp only [rewrite, hfind]
    rw [if_pos hH]
  · rintro projs frm whr grp hav ord lim dist rfl hH e herr
    simp only [rewrite, findSelect] at herr
    rw [if_neg (by simp [hH])] at herr
    by_cases hcond : (!(hasTopLevelAggregates (SqlExpr.select projs frm whr grp hav ord lim dist))
        || (selectGroup (SqlExpr.select projs frm whr grp hav ord lim dist)).isNone) = true
    · rw [if_pos hcond] at herr
      simp [rewriteNonAggregate] at herr
    · rw [if_neg hcond] at herr
      have hTop : projs.any containsAggregateNotInSubquery = true := by
        by_contra hnot
        apply hcond
        simp only [Bool.or_eq_true, Bool.not_eq_true']
        exact Or.inl (by simpa [hasTopLevelAggregates, selectProjs] using hnot)
      rcases hAf : s.aggregate_function with _ | af
      · rw [hAf] at herr
        simp only [Except.error.injEq] at herr
        rw [← herr]
        rfl
      · rw [hAf] at herr
        simp only [rewriteAggregate, findSelect] at herr
        rw [processProjections_agg] at herr
        have hne := markAliases_filter_ne_nil seed projs hTop
        rcases hfl : (markAliases seed projs).filter containsAggregateNotInSubquery
            with _ | ⟨a, t⟩
        · exact absurd hfl hne
        · rw [hfl] at herr
          simp at herr

theorem rewrite_error_classes_witness :
    rewrite 1000 (.command ("VACUUM")) whySemiring
      = .error (.valueError ("Expected SELECT query"))
    ∧ rewrite 1000 havingQuery whySemiring
      = .error (.notImplementedError
          ("HAVING queries are not supported yet, rewrite your SQL with nested SELECTs."))
    ∧ (RewriteError.semiringOperationNotSupported "why" ("aggregate queries")).className
      = "SemiringOperationNotSupportedError" := by
  refine ⟨?_, ?_, ?_⟩
  · exact (rewrite_error_classes 1000 whySemiring (.command ("VACUUM"))).1 rfl
  · exact (rewrite_error_classes 1000 whySemiring havingQuery).2.1 havingQuery rfl rfl
  · exact (rewrite_error_classes 1000 whySemiring demoAggQuery).2.2
      [.column "col1" "", .aliasE (.aggFunc "SUM" [.column "col2" ""]) "total"]
      (some (.tableRef "t")) none (some [.column "col1" ""]) none none none false rfl rfl
      (.semiringOperationNotSupported "why" ("aggregate queries")) rfl

theorem tableExists_dropTable_self (st : PgState) (schema nm : String) :
    tableExists (dropTable st schema nm) schema nm = false := by
  simp only [tableExists, dropTable]
  rw [Bool.eq_false_iff]
  intro hcon
  rw [List.any_eq_true] at hcon
  obtain ⟨t, ht, hp⟩ := hcon
  rw [List.mem_filter] at ht
  obtain ⟨_, hq⟩ := ht
  simp only [Bool.and_eq_true, decide_eq_true_eq] at hp
  simp [hp.1, hp.2] at hq

theorem any_filter_ne (l : List (String × String)) (schema nm other : String)
    (h : ¬(other = nm)) :
    (l.filter (fun t => !(t.1 = schema ∧ t.2 = nm : Bool))).any
        (fun t => t.1 = schema && t.2 = other)
      = l.any (fun t => t.1 = schema && t.2 = other) := by
  induction l with
  | nil => rfl
  | cons t rest ih =>
    simp only [List.filter_cons]
    by_cases hq : (!(t.1 = schema ∧ t.2 = nm : Bool)) = true
    · rw [if_pos hq]
      simp only [List.any_cons, ih]
    · rw [if_neg hq]
      have hq2 : decide (t.1 = schema ∧ t.2 = nm) = true := by
        rcases Bool.eq_false_or_eq_true (decide (t.1 = schema ∧ t.2 = nm)) with hd | hd
        · exact hd
        · exact absurd (by simp [hd]) hq
      have hconj := of_decide_eq_true hq2
      have hfalse : ((t.1 = schema : Bool) && (t.2 = other : Bool)) = false := by
        simp only [Bool.and_eq_false_iff, decide_eq_false_iff_not]
        right
        rw [hconj.2]
        intro hc
        exact h hc.symm
      rw [ih]
      simp [List.any_cons, hfalse]

theorem tableExists_dropTable_ne (st : PgState) (schema nm other : String)
    (h : ¬(other = nm)) :
    tableExists (dropTable st schema nm) schema other = tableExists st schema other := by
  simp only [tableExists, dropTable]
  exact any_filter_ne st.tables schema nm other h

/-- C8 counterexample: annotating a fresh table with the `why` semiring and
then removing that annotation does NOT restore the schema: the per-table
mapping table is gone but the union mapping table `why_mapping` is left
behind, because `_rebuild_union_mapping` returns early without dropping it
when no suffixed tables remain. -/
theorem remove_union_left_behind_counterexample :
    (remove_semiring (add_semiring ⟨[("s", "users")]⟩ "s" "users" whySemiring).1
        "s" "users" whySemiring).1
      = ⟨[("s", "users"), ("s", "why_mapping")]⟩
    ∧ tableExists (remove_semiring (add_semiring ⟨[("s", "users")]⟩ "s" "users" whySemiring).1
        "s" "users" whySemiring).1 "s" "why_mapping" = true
    ∧ (⟨[("s", "users"), ("s", "why_mapping")]⟩ : PgState) ≠ ⟨[("s", "users")]⟩ := by
  refine ⟨by decide, by decide, by decide⟩

/-- C8 (amended): when `remove_semiring` drops the last per-table mapping
table of a semiring (no table matching the suffix remains afterwards), the
per-table mapping table is indeed gone and true is returned, but the state
is exactly the old state minus that one table: the union mapping table is
left untouched, not dropped, so the schema is NOT restored to its
pre-annotation observable state. -/
theorem remove_semiring_last_table
    (st : PgState) (schema table : String) (s : DbSemiring)
    (hex : tableExists st schema (s.get_provenance_table_name_for table) = true)
    (hnone : pgTablesMatching (dropTable st schema (s.get_provenance_table_name_for table))
        schema s = [])
    (hneq : ¬(s.union_table_name = s.get_provenance_table_name_for table)) :
    remove_semiring st schema table s
      = (dropTable st schema (s.get_provenance_table_name_for table), true)
    ∧ tableExists (remove_semiring st schema table s).1 schema
        (s.get_provenance_table_name_for table) = false
    ∧ tableExists (remove_semiring st schema table s).1 schema s.union_table_name
        = tableExists st schema s.union_table_name := by
  have h1 : remove_semiring st schema table s
      = (dropTable st schema (s.get_provenance_table_name_for table), true) := by
    simp only [remove_semiring]
    rw [if_pos (by simp [hex])]
    simp only [rebuild_union_mapping]
    rw [hnone]
    simp
  refine ⟨h1, ?_, ?_⟩
  · rw [h1]
    exact tableExists_dropTable_self _ _ _
  · rw [h1]
    exact tableExists_dropTable_ne st schema _ _ hneq

theorem remove_semiring_last_table_witness :
    remove_semiring ⟨[("s", "users"), ("s", "users_provwhy"), ("s", "why_mapping")]⟩
        "s" "users" whySemiring
      = (⟨[("s", "users"), ("s", "why_mapping")]⟩, true)
    ∧ tableExists (remove_semiring
        ⟨[("s", "users"), ("s", "users_provwhy"), ("s", "why_mapping")]⟩
        "s" "users" whySemiring).1 "s" "users_provwhy" = false
    ∧ tableExists (remove_semiring
        ⟨[("s", "users"), ("s", "users_provwhy"), ("s", "why_mapping")]⟩
        "s" "users" whySemiring).1 "s" "why_mapping"
      = tableExists ⟨[("s", "users"), ("s", "users_provwhy"), ("s", "why_mapping")]⟩
          "s" "why_mapping" := by
  have := remove_semiring_last_table
      ⟨[("s", "users"), ("s", "users_provwhy"), ("s", "why_mapping")]⟩
      "s" "users" whySemiring (by decide) (by decide) (by decide)
  exact this

theorem remove_annotation_unchanged (schema table : String) :
    ∀ (sems : List DbSemiring) (st : PgState),
    (∀ x ∈ sems, tableExists st schema (x.get_provenance_table_name_for table) = false) →
    remove_annotation st schema table sems = (st, false) := by
  intro sems
  induction sems with
  | nil => intro st _; rfl
  | cons s rest ih =>
    intro st h
    have hs : remove_semiring st schema table s = (st, false) := by
      simp only [remove_semiring]
      rw [if_neg (by simp [h s (by simp)])]
    simp only [ remove_annotation, hs]
    rw [ih st (fun x hx => h x (by simp [hx]))]
    rfl

/-- C9: removing a semiring whose per-table mapping table does not exist
returns false and leaves the database state untouched (no table dropped, no
union rebuild), and `remove_annotation` over any list of such semirings also
returns false with the state untouched; nothing is raised, as the existence
check guards the drop. -/
theorem remove_semiring_missing_returns_false
    (st : PgState) (schema table : String) (s : DbSemiring) (sems : List DbSemiring)
    (hs : tableExists st schema (s.get_provenance_table_name_for table) = false)
    (hall : ∀ x ∈ sems, tableExists st schema (x.get_provenance_table_name_for table) = false) :
    remove_semiring st schema table s = (st, false)
    ∧ remove_annotation st schema table sems = (st, false) := by
  constructor
  · simp only [remove_semiring]
    rw [if_neg (by simp [hs])]
  · exact remove_annotation_unchanged schema table sems st hall

theorem remove_semiring_missing_returns_false_witness :
    remove_semiring ⟨[("s", "users")]⟩ "s" "users" whySemiring
      = (⟨[("s", "users")]⟩, false)
    ∧ remove_annotation ⟨[("s", "users")]⟩ "s" "users" [whySemiring, formulaSemiring]
      = (⟨[("s", "users")]⟩, false) := by
  have := remove_semiring_missing_returns_false ⟨[("s", "users")]⟩ "s" "users"
      whySemiring [whySemiring, formulaSemiring] (by decide) (by decide)
  exact this
